import Mathlib

/-!
Shallow embedding of the test-runner program (src/main.rs).

The program converts raw `cargo test` JSON output into a point-weighted
grade report.  We embed the scoring engine faithfully:

* Rust `f64` values are modelled as exact rationals `ℚ`; the only float
  operation the engine uses besides field arithmetic is `f64::round`
  (round half away from zero), modelled by `rustRound`.
* Strings are modelled as `List Char` (Rust strings are sequences of
  Unicode scalar values; `s.chars()` iterates scalar values).
* A parsed JSON value field access `line["k"]` yields `Null` for a
  missing key; we model each line by the four field accesses the code
  performs (`type`, `event`, `name`, `stdout`), each a `JVal` that is
  `null`, a JSON string, or some other JSON value carried by its
  textual rendering (what `Value::to_string()` produces for it).
* `serde_json::from_str` on a raw line is an external parser: a raw
  line is represented by its parse result `Option JLine`
  (`none` = unparseable, dropped by `output_to_json`).
* Running `cargo` is the external collaborator: a suite invocation is
  represented by its result `Except Str (List (Option JLine))`
  (`Err` = the `io::Error` carried by its rendered message).
* A Rust `panic!` / `.unwrap()` failure is modelled by `Option`:
  `unescape` returns `none` where the Rust function panics, and the
  panic propagates outward through `filter_test_output`, `cargo_test`
  and the suite loop.
-/

namespace TestRunner

/-- Rust strings as sequences of Unicode scalar values. -/
abbrev Str := List Char

/-! ## Rounding (fn round, src/main.rs lines 96-98) -/

/-- Rust `f64::round`: round to nearest integer, half away from zero. -/
def rustRound (x : ℚ) : ℤ :=
  if 0 ≤ x then ⌊x + 1/2⌋ else -⌊-x + 1/2⌋

/-- Evaluation form of `rustRound` on nonnegative inputs, stated with
`Rat.floor` so that concrete instances compute. -/
theorem rustRound_nonneg_eval (x : ℚ) (h : 0 ≤ x) :
    rustRound x = Rat.floor (x + 1/2) := by
  rw [rustRound, if_pos h, Rat.floor_def, Rat.floor_def']

/-- Function `fn round`: multiply by 100, `f64::round`, divide by 100. -/
def round (input : ℚ) : ℚ :=
  ((rustRound (input * 100) : ℚ)) / 100

/-! ## Data model (structs Suite, Test, Results) -/

/-- One suite from the settings file (struct Suite). -/
structure Suite where
  number : Str
  name : Str
  points : ℚ
  filter : Str

/-- One scored test of the report (struct Test). -/
structure Test where
  number : Str
  name : Str
  score : ℚ
  max_score : ℚ
  output : Str
deriving DecidableEq

/-- Constructor `Test::new`: `max_score` starts at `1.0`. -/
def Test.new (number name : Str) (score : ℚ) (output : Str) : Test :=
  { number := number, name := name, score := score, output := output,
    max_score := 1 }

/-- Method `Test::scale`: multiply score and max_score by `factor` and round each. -/
def Test.scale (t : Test) (factor : ℚ) : Test :=
  { number := t.number, name := t.name,
    score := round (t.score * factor),
    max_score := round (t.max_score * factor),
    output := t.output }

/-- The report accumulator (struct Results). -/
structure Results where
  tests : List Test
  output : Str
deriving DecidableEq

/-- Constructor `Results::new`: empty test list, empty output. -/
def Results.new : Results := { tests := [], output := [] }

/-! ## JSON values as the code observes them -/

/-- The value of one field access `line["k"]` on a parsed JSON line:
`null` when the key is missing or the line is not an object, a JSON
string, or any other JSON value carried by its textual rendering. -/
inductive JVal where
  | null
  | str (s : Str)
  | other (rendered : Str)
deriving DecidableEq

/-- Rust `to_digit(16)`: hexadecimal digit value of a character. -/
def hexDigit (c : Char) : Option Nat :=
  let n := c.toNat
  if 48 ≤ n ∧ n ≤ 57 then some (n - 48)
  else if 97 ≤ n ∧ n ≤ 102 then some (n - 97 + 10)
  else if 65 ≤ n ∧ n ≤ 70 then some (n - 65 + 10)
  else none

/-- Lowercase hex digit character for a value `< 16` (serde_json's table). -/
def hexChar (n : Nat) : Char :=
  if n < 10 then Char.ofNat (48 + n) else Char.ofNat (87 + n)

/-- How `serde_json` escapes one character when rendering a JSON string:
`"` and `\` get a backslash, the five short control escapes are used,
other control characters become `\u00XX`, everything else is literal. -/
def jsonEscapeChar (c : Char) : Str :=
  if c = '"' then ['\\', '"']
  else if c = '\\' then ['\\', '\\']
  else if c = '\x08' then ['\\', 'b']
  else if c = '\x09' then ['\\', 't']
  else if c = '\x0a' then ['\\', 'n']
  else if c = '\x0c' then ['\\', 'f']
  else if c = '\x0d' then ['\\', 'r']
  else if c.toNat < 32 then
    ['\\', 'u', '0', '0', hexChar (c.toNat / 16), hexChar (c.toNat % 16)]
  else [c]

/-- Render a string body with serde_json's escaping. -/
def jsonEscape (s : Str) : Str :=
  s.foldr (fun c acc => jsonEscapeChar c ++ acc) []

/-- Rendering `Value::to_string()`: `Null` renders as `null`, a string renders with
surrounding quote characters and escaped body; other values carry their
rendering. -/
def JVal.render : JVal → Str
  | .null => ['n', 'u', 'l', 'l']
  | .str s => '"' :: (jsonEscape s ++ ['"'])
  | .other r => r

/-- Comparison `Value == "lit"` (serde's `PartialEq<str>`): true exactly for the
string value with that content. -/
def JVal.eqStr : JVal → Str → Bool
  | .str s, t => s = t
  | .null, _ => false
  | .other _, _ => false

/-- One parsed JSON line, given by the four field accesses
`line["type"]`, `line["event"]`, `line["name"]`, `line["stdout"]`
that `filter_test_output` performs. -/
structure JLine where
  type : JVal
  event : JVal
  name : JVal
  stdout : JVal
deriving DecidableEq

/-! ## Escape decoder (fn unescape, src/main.rs lines 192-217) -/

/-- Big-endian fold of hex digit values:
`fold(0, |acc, c| acc * 16 + c.to_digit(16).unwrap())`. -/
def hexVal (ds : List Nat) : Nat :=
  ds.foldl (fun a d => a * 16 + d) 0

/-- Hex digit values of a character list; `none` as soon as one character
is not a hex digit (the Rust fold `.unwrap()`s each digit, panicking at
the first non-hex character). -/
def hexDigits : Str → Option (List Nat)
  | [] => some []
  | c :: cs =>
    match hexDigit c with
    | none => none
    | some d => (hexDigits cs).map (d :: ·)

/-- Rust `std::char::from_u32`: `Some` exactly for valid Unicode scalar
values (not a surrogate, at most `0x10FFFF`). -/
def from_u32 (v : Nat) : Option Char :=
  if v.isValidChar then some (Char.ofNat v) else none

/-- Translation of one non-`u` escaped character: `b f n r t` map to
their control characters, anything else passes through literally. -/
def escChar (c : Char) : Char :=
  if c = 'b' then '\x08'
  else if c = 'f' then '\x0c'
  else if c = 'n' then '\x0a'
  else if c = 'r' then '\x0d'
  else if c = 't' then '\x09'
  else c

/-- Function `fn unescape`, with `none` for a panic.
A backslash followed by `u` makes the iterator `take(4)` — up to four
characters, fewer when the string ends — folds their hex digit values
(panicking on a non-hex character) and `from_u32(..).unwrap()`s the
result; a trailing lone backslash panics (`Malformed escape`); any other
escaped character is translated by `escChar`. -/
def unescape : Str → Option Str
  | [] => some []
  | c :: rest =>
    if c = '\\' then
      match rest with
      | [] => none
      | e :: rest2 =>
        if e = 'u' then
          match rest2 with
          | c1 :: c2 :: c3 :: c4 :: rest3 =>
            match hexDigits [c1, c2, c3, c4] with
            | none => none
            | some ds =>
              match from_u32 (hexVal ds) with
              | none => none
              | some ch => (unescape rest3).map (ch :: ·)
          | short =>
            match hexDigits short with
            | none => none
            | some ds =>
              match from_u32 (hexVal ds) with
              | none => none
              | some ch => some [ch]
        else (unescape rest2).map (escChar e :: ·)
    else (unescape rest).map (c :: ·)

/-! ## Event classifier (fn filter_test_output, src/main.rs lines 174-186) -/

/-- Method call `.replace` on quote characters: drop every quote character. -/
def removeQuotes (s : Str) : Str := s.filter (fun c => c ≠ '"')

/-- Function `fn filter_test_output`.
The outer `Option` models a panic inside `unescape` (`none` = panic);
`some none` is the Rust `None`, `some (some t)` the Rust `Some(t)`.
Returns Rust `None` unless `line["type"] == "test"` and
`line["event"] != "started"`; otherwise `passed = (line["event"] == "ok")`,
score is `1.0` or `0.0`, the name strips all quotes from the rendered
`name` field, and the output is empty on pass and the unescaped rendered
`stdout` field on failure. -/
def filter_test_output (line : JLine) (number : Str) (pfx : Str) :
    Option (Option Test) :=
  if line.type.eqStr ['t', 'e', 's', 't']
      ∧ ¬ (line.event.eqStr ['s', 't', 'a', 'r', 't', 'e', 'd'] = true) then
    let passed := line.event.eqStr ['o', 'k']
    let score : ℚ := if passed then 1 else 0
    let name := pfx ++ (' ' :: '-' :: ' ' :: removeQuotes line.name.render)
    match (if passed then some [] else unescape line.stdout.render) with
    | none => none
    | some output => some (some (Test.new number name score output))
  else some none

/-! ## Suite runner output (fn output_to_json, src/main.rs lines 162-172) -/

/-- Function `fn output_to_json`: each raw stdout line is independently parsed;
lines that fail to parse are skipped.  A raw line is represented by its
parse result, so this is `filterMap id`. -/
def output_to_json (lines : List (Option JLine)) : List JLine :=
  lines.filterMap id

/-! ## Batch collection and scoring (fn cargo_test, src/main.rs lines 137-159) -/

/-- The `for line in output_to_json(&output)` loop of `cargo_test`:
`count` starts at `1`; each line gets number
`suite.number + "." + count`; accepted tests are pushed and bump
`count`; `none` propagates a panic. -/
def runBatch (suite : Suite) : List JLine → Nat → Option (List Test)
  | [], _ => some []
  | line :: rest, count =>
    let number := suite.number ++ ('.' :: (Nat.repr count).data)
    match filter_test_output line number suite.name with
    | none => none
    | some none => runBatch suite rest count
    | some (some t) => (runBatch suite rest (count + 1)).map (t :: ·)

/-- The result of the external `cargo test` invocation for one suite:
`Err` carries the rendered `io::Error`, `Ok` the parse results of the
stdout lines. -/
abbrev SuiteRun := Except Str (List (Option JLine))

/-- Function `fn cargo_test`.  On `Ok` output, collect the
batch; when non-empty, allocate `suite.points / batch.len()` per test and
push each scaled test.  On `Err`, set `results.output` to the rendered
error.  `none` models a propagated panic. -/
def cargo_test (results : Results) (suite : Suite) (run : SuiteRun) :
    Option Results :=
  match run with
  | .ok out =>
    match runBatch suite (output_to_json out) 1 with
    | none => none
    | some batch =>
      if batch.length > 0 then
        let value_scale := suite.points / (batch.length : ℚ)
        some { results with
               tests := results.tests ++ batch.map (fun t => t.scale value_scale) }
      else some results
  | .error err => some { results with output := err }

/-- The `for suite in settings.suites` loop of `main`: run every suite in
order against the shared `Results` accumulator. -/
def runSuites : Results → List (Suite × SuiteRun) → Option Results
  | results, [] => some results
  | results, (suite, run) :: rest =>
    match cargo_test results suite run with
    | none => none
    | some r => runSuites r rest

/-! ## Concrete data used to instantiate theorems with hypotheses -/

/-- A completed passing test event. -/
def okLine : JLine :=
  { type := .str ['t', 'e', 's', 't'], event := .str ['o', 'k'],
    name := .str ['a'], stdout := .null }

/-- A completed failing test event with a plain diagnostic. -/
def failLine : JLine :=
  { type := .str ['t', 'e', 's', 't'], event := .str ['f', 'a', 'i', 'l', 'e', 'd'],
    name := .str ['t', '1'], stdout := .str ['a', 'b', 'c'] }

/-- A test-started event (dropped by the classifier). -/
def startLine : JLine :=
  { type := .str ['t', 'e', 's', 't'], event := .str ['s', 't', 'a', 'r', 't', 'e', 'd'],
    name := .str ['a'], stdout := .null }

/-- A suite-level event (dropped by the classifier). -/
def suiteLine : JLine :=
  { type := .str ['s', 'u', 'i', 't', 'e'], event := .str ['o', 'k'],
    name := .null, stdout := .null }

/-- A two-point suite numbered `1`. -/
def wSuite : Suite :=
  { number := ['1'], name := ['S'], points := 1, filter := [] }

/-- The raw stdout lines of a run discovering one pass and one failure. -/
def wLines : List (Option JLine) := [some okLine, some failLine]

/-- The batch collected from `wLines`: a passing test numbered `1.1` and a
failing test numbered `1.2` whose output keeps the rendered quotes. -/
def wT1 : Test := Test.new ['1', '.', '1'] ('S' :: ' ' :: '-' :: ' ' :: ['a']) 1 []

/-- The failing test of the concrete batch. -/
def wT2 : Test :=
  Test.new ['1', '.', '2'] ('S' :: ' ' :: '-' :: ' ' :: ['t', '1']) 0
    ['"', 'a', 'b', 'c', '"']

/-- The concrete two-test batch. -/
def wBatch : List Test := [wT1, wT2]

/-- The report produced by running `wSuite` over `wLines` from an empty
accumulator. -/
def wR : Results :=
  { tests := Results.new.tests ++ wBatch.map
      (fun t => t.scale (wSuite.points / (wBatch.length : ℚ))),
    output := [] }

/-! ## Rounding lemmas -/

/-- Lemma: `rustRound` is within one half of its argument. -/
theorem abs_rustRound_sub_le (x : ℚ) : |(rustRound x : ℚ) - x| ≤ 1/2 := by
  rw [rustRound]
  split
  · have h1 := Int.floor_le (x + 1/2)
    have h2 := Int.lt_floor_add_one (x + 1/2)
    rw [abs_le]
    constructor <;> [linarith; linarith]
  · have h1 := Int.floor_le (-x + 1/2)
    have h2 := Int.lt_floor_add_one (-x + 1/2)
    rw [abs_le]
    push_cast
    constructor <;> [linarith; linarith]

/-- Each rounded value is within `1/200` (half a cent) of the raw value. -/
theorem abs_round_sub_le (x : ℚ) : |round x - x| ≤ 1/200 := by
  have h := abs_rustRound_sub_le (x * 100)
  have heq : round x - x = ((rustRound (x * 100) : ℚ) - x * 100) / 100 := by
    rw [round]; ring
  rw [heq, abs_div]
  rw [show |(100 : ℚ)| = 100 by norm_num]
  linarith

/-- Rounding maps zero to zero. -/
theorem round_zero : round 0 = 0 := by
  norm_num [round, rustRound]

/-- Rounding preserves nonnegativity. -/
theorem round_nonneg (x : ℚ) (h : 0 ≤ x) : 0 ≤ round x := by
  rw [round, rustRound, if_pos (by linarith : (0:ℚ) ≤ x * 100)]
  have h0 : (0 : ℤ) ≤ ⌊x * 100 + 1/2⌋ := Int.floor_nonneg.mpr (by linarith)
  have h1 : (0 : ℚ) ≤ (⌊x * 100 + 1/2⌋ : ℚ) := by exact_mod_cast h0
  exact div_nonneg h1 (by norm_num)

/-- Rounding is monotone on nonnegative inputs. -/
theorem round_mono_nonneg (x y : ℚ) (hx : 0 ≤ x) (hxy : x ≤ y) :
    round x ≤ round y := by
  have hy : 0 ≤ y := le_trans hx hxy
  rw [round, round, rustRound, rustRound,
    if_pos (by linarith : (0:ℚ) ≤ x * 100), if_pos (by linarith : (0:ℚ) ≤ y * 100)]
  have h : ⌊x * 100 + 1/2⌋ ≤ ⌊y * 100 + 1/2⌋ :=
    Int.floor_le_floor (by linarith)
  have h' : ((⌊x * 100 + 1/2⌋ : ℤ) : ℚ) ≤ ((⌊y * 100 + 1/2⌋ : ℤ) : ℚ) := by
    exact_mod_cast h
  exact div_le_div_of_nonneg_right h' (by norm_num) |>.trans_eq rfl

/-! ## Classifier lemmas -/

/-- Case-split form of the classifier: rejected records give Rust `None`;
an `ok` record gives a passing test with empty output; any other
completed test record gives a failing test whose output is the unescaped
rendered `stdout` field (a panic inside `unescape` propagating as the
outer `none`). -/
theorem filter_test_output_unfold (line : JLine) (number pfx : Str) :
    filter_test_output line number pfx =
      if line.type.eqStr ['t', 'e', 's', 't']
          ∧ ¬ (line.event.eqStr ['s', 't', 'a', 'r', 't', 'e', 'd'] = true) then
        if line.event.eqStr ['o', 'k'] then
          some (some (Test.new number
            (pfx ++ ' ' :: '-' :: ' ' :: removeQuotes line.name.render) 1 []))
        else
          match unescape line.stdout.render with
          | none => none
          | some out => some (some (Test.new number
              (pfx ++ ' ' :: '-' :: ' ' :: removeQuotes line.name.render) 0 out))
      else some none := by
  rw [filter_test_output]
  rcases hev : line.event.eqStr ['o', 'k'] with _ | _ <;>
    simp only [hev, Bool.false_eq_true, if_false, if_true]
  all_goals rfl

/-- Structure of every test the classifier accepts: its number is the one
passed in, its `max_score` starts at `1`, its score is `1` exactly on an
`ok` event, its output is empty on `ok` and the unescaped rendered
`stdout` on failure. -/
theorem filter_test_output_eq (line : JLine) (number pfx : Str) (t : Test)
    (h : filter_test_output line number pfx = some (some t)) :
    t.number = number ∧ t.max_score = 1 ∧
    t.score = (if line.event.eqStr ['o', 'k'] then (1 : ℚ) else 0) ∧
    (line.event.eqStr ['o', 'k'] = true → t.output = []) ∧
    (line.event.eqStr ['o', 'k'] = false →
      unescape line.stdout.render = some t.output) := by
  rw [filter_test_output_unfold] at h
  split at h
  · rcases hev : line.event.eqStr ['o', 'k'] with _ | _
    · rw [hev] at h
      simp only [Bool.false_eq_true, if_false] at h
      rcases hun : unescape line.stdout.render with _ | out
      · rw [hun] at h; exact absurd h (by simp)
      · rw [hun] at h
        simp only [Option.some.injEq] at h
        subst h
        refine ⟨rfl, rfl, ?_, ?_, ?_⟩
        · rfl
        · intro hc; exact absurd hc (by decide)
        · intro _; rfl
    · rw [hev] at h
      simp only [if_true] at h
      simp only [Option.some.injEq] at h
      subst h
      refine ⟨rfl, rfl, ?_, ?_, ?_⟩
      · rfl
      · intro _; rfl
      · intro hc; exact absurd hc (by decide)
  · exact absurd h (by simp)

/-- C3: the Event Classifier returns `None` exactly when the `type` field
is not the string `"test"` or the `event` field is the string
`"started"`; every test it does produce is marked passed (score `1`
rather than `0`) if and only if the `event` field is `"ok"`. -/
theorem c3_classifier (line : JLine) (number pfx : Str) :
    (filter_test_output line number pfx = some none
        ↔ ¬(line.type.eqStr ['t', 'e', 's', 't'] = true
            ∧ ¬ line.event.eqStr ['s', 't', 'a', 'r', 't', 'e', 'd'] = true))
    ∧ (∀ t : Test, filter_test_output line number pfx = some (some t) →
        (t.score = 1 ↔ line.event.eqStr ['o', 'k'] = true)) := by
  constructor
  · rw [filter_test_output_unfold]
    split
    · next hcond =>
      constructor
      · intro h
        split at h
        · exact absurd h (by simp)
        · split at h
          · exact absurd h (by simp)
          · exact absurd h (by simp)
      · intro hn; exact absurd hcond hn
    · next hcond =>
      exact ⟨fun _ => hcond, fun _ => rfl⟩
  · intro t ht
    obtain ⟨-, -, hs, -, -⟩ := filter_test_output_eq line number pfx t ht
    rcases hev : line.event.eqStr ['o', 'k'] with _ | _
    · rw [hev] at hs
      simp only [Bool.false_eq_true, if_false] at hs
      rw [hs]
      norm_num
    · rw [hev] at hs
      simp only [if_true] at hs
      rw [hs]
      simp

/-- Witness for C3 at two concrete records: the suite-level `ok` record is
rejected, and the failing-test record is classified with score `0`
(not passed). -/
theorem c3_classifier_witness :
    (filter_test_output suiteLine ['1', '.', '1'] ['S'] = some none)
    ∧ ¬ (Test.new ['1', '.', '1'] ('S' :: ' ' :: '-' :: ' ' :: ['t', '1']) 0
          ['"', 'a', 'b', 'c', '"']).score = 1 := by
  constructor
  · exact ((c3_classifier suiteLine ['1', '.', '1'] ['S']).1).mpr (by decide)
  · intro hs
    have h := ((c3_classifier failLine ['1', '.', '1'] ['S']).2
      (Test.new ['1', '.', '1'] ('S' :: ' ' :: '-' :: ' ' :: ['t', '1']) 0
        ['"', 'a', 'b', 'c', '"']) (by decide)).mp hs
    cases h

/-- C5: a suite whose batch of classified outcomes is empty appends no
tests to the report, whatever its point budget is. -/
theorem c5_empty_batch (results : Results) (suite : Suite)
    (lines : List (Option JLine)) (r : Results)
    (hrun : runBatch suite (output_to_json lines) 1 = some [])
    (hct : cargo_test results suite (.ok lines) = some r) :
    r.tests = results.tests := by
  rw [cargo_test, hrun] at hct
  simp only [List.length_nil, gt_iff_lt, lt_irrefl, if_false,
    Option.some.injEq] at hct
  rw [← hct]

/-- Witness for C5: a suite with a positive budget whose only lines are a
start event, a suite event and an unparseable line scores nothing. -/
theorem c5_empty_batch_witness :
    cargo_test Results.new wSuite
        (.ok [some startLine, none, some suiteLine]) = some Results.new
    ∧ Results.new.tests = Results.new.tests := by
  refine ⟨by decide, ?_⟩
  exact c5_empty_batch Results.new wSuite [some startLine, none, some suiteLine]
    Results.new (by decide) (by decide) ▸ rfl

/-- C6: when the external invocation of a suite fails, no tests are
produced for it, the report's `output` field is overwritten with the
rendered failure (whatever it held before), and the suite loop continues
with the remaining suites from that updated accumulator. -/
theorem c6_invocation_failure (results : Results) (suite : Suite) (err : Str)
    (rest : List (Suite × SuiteRun)) :
    cargo_test results suite (.error err)
        = some { tests := results.tests, output := err }
    ∧ runSuites results ((suite, .error err) :: rest)
        = runSuites { tests := results.tests, output := err } rest := by
  constructor
  · rfl
  · rfl

/-! ## Batch lemmas -/

/-- Every test collected by the suite loop has `max_score = 1` and score
`1` (passed) or `0` (failed). -/
theorem runBatch_mem (suite : Suite) :
    ∀ (lines : List JLine) (c : Nat) (batch : List Test),
      runBatch suite lines c = some batch →
      ∀ t ∈ batch, t.max_score = 1 ∧ (t.score = 1 ∨ t.score = 0) := by
  intro lines
  induction lines with
  | nil =>
    intro c batch h t ht
    simp only [runBatch, Option.some.injEq] at h
    subst h
    cases ht
  | cons line rest ih =>
    intro c batch h t ht
    simp only [runBatch] at h
    rcases hf : filter_test_output line (suite.number ++ ('.' :: (Nat.repr c).data))
        suite.name with _ | ot
    · rw [hf] at h; cases h
    · rcases ot with _ | t0
      · rw [hf] at h
        exact ih c batch h t ht
      · rw [hf] at h
        rcases hr : runBatch suite rest (c + 1) with _ | batch'
        · rw [hr] at h; cases h
        · rw [hr] at h
          simp only [Option.map_some', Option.some.injEq] at h
          subst h
          rcases List.mem_cons.mp ht with heq | ht'
          · subst heq
            obtain ⟨-, hmax, hs, -, -⟩ :=
              filter_test_output_eq line _ suite.name t hf
            refine ⟨hmax, ?_⟩
            rcases hev : line.event.eqStr ['o', 'k'] with _ | _ <;>
              rw [hev] at hs
            · right; simpa using hs
            · left; simpa using hs
          · exact ih (c + 1) batch' hr t ht'

/-- The `i`-th (0-based) test of a batch collected starting from counter
`c` carries number `suite.number ++ "." ++ repr (c + i)`. -/
theorem runBatch_numbers (suite : Suite) :
    ∀ (lines : List JLine) (c : Nat) (batch : List Test),
      runBatch suite lines c = some batch →
      ∀ (i : Nat) (hi : i < batch.length),
        (batch.get ⟨i, hi⟩).number
          = suite.number ++ ('.' :: (Nat.repr (c + i)).data) := by
  intro lines
  induction lines with
  | nil =>
    intro c batch h i hi
    simp only [runBatch, Option.some.injEq] at h
    subst h
    cases hi
  | cons line rest ih =>
    intro c batch h i hi
    simp only [runBatch] at h
    rcases hf : filter_test_output line (suite.number ++ ('.' :: (Nat.repr c).data))
        suite.name with _ | ot
    · rw [hf] at h; cases h
    · rcases ot with _ | t0
      · rw [hf] at h
        exact ih c batch h i hi
      · rw [hf] at h
        rcases hr : runBatch suite rest (c + 1) with _ | batch'
        · rw [hr] at h; cases h
        · rw [hr] at h
          simp only [Option.map_some', Option.some.injEq] at h
          subst h
          rcases i with _ | i'
          · obtain ⟨hnum, -, -, -, -⟩ :=
              filter_test_output_eq line _ suite.name t0 hf
            simpa using hnum
          · have hi' : i' < batch'.length := by
              simpa using Nat.lt_of_succ_lt_succ hi
            have := ih (c + 1) batch' hr i' hi'
            have harith : (c + 1) + i' = c + (i' + 1) := by omega
            rw [harith] at this
            simpa using this

/-- Shape of the report after a successful invocation that discovered a
non-empty batch: the scaled batch is appended to the existing tests. -/
theorem cargo_test_ok_eq (results : Results) (suite : Suite)
    (lines : List (Option JLine)) (batch : List Test) (r : Results)
    (hrun : runBatch suite (output_to_json lines) 1 = some batch)
    (hN : 0 < batch.length)
    (hct : cargo_test results suite (.ok lines) = some r) :
    r.tests = results.tests ++
        batch.map (fun t => t.scale (suite.points / (batch.length : ℚ))) := by
  simp only [cargo_test] at hct
  rw [hrun] at hct
  have hct' :
      (if batch.length > 0 then
        some (⟨results.tests ++
          batch.map (fun t => t.scale (suite.points / (batch.length : ℚ))),
          results.output⟩ : Results)
      else some results) = some r := hct
  rw [if_pos hN] at hct'
  simp only [Option.some.injEq] at hct'
  rw [← hct']

/-- Sum of a constant-valued map. -/
theorem sum_map_const (l : List Test) (g : Test → ℚ) (c : ℚ)
    (h : ∀ x ∈ l, g x = c) : (l.map g).sum = l.length * c := by
  induction l with
  | nil => simp
  | cons x xs ih =>
    simp only [List.map_cons, List.sum_cons, List.length_cons]
    rw [h x (List.mem_cons_self x xs),
      ih (fun y hy => h y (List.mem_cons_of_mem x hy))]
    push_cast
    ring

/-- C1: every test produced for a suite whose budget is `P` and whose
batch has `N > 0` outcomes has `max_score = round (P / N)`; its score is
that same rounded value when it passed (raw score `1`) and `0` when it
failed (raw score `0`); the produced tests are exactly the scaled batch
appended to the report. -/
theorem c1_per_test_scores (results r : Results) (suite : Suite)
    (lines : List (Option JLine)) (batch : List Test)
    (hrun : runBatch suite (output_to_json lines) 1 = some batch)
    (hN : 0 < batch.length)
    (hct : cargo_test results suite (.ok lines) = some r) :
    r.tests = results.tests ++
        batch.map (fun t => t.scale (suite.points / (batch.length : ℚ)))
    ∧ ∀ t ∈ batch,
        (t.score = 1 ∨ t.score = 0)
        ∧ (t.scale (suite.points / (batch.length : ℚ))).max_score
            = round (suite.points / (batch.length : ℚ))
        ∧ (t.score = 1 → (t.scale (suite.points / (batch.length : ℚ))).score
            = round (suite.points / (batch.length : ℚ)))
        ∧ (t.score = 0 → (t.scale (suite.points / (batch.length : ℚ))).score = 0) := by
  constructor
  · exact cargo_test_ok_eq results suite lines batch r hrun hN hct
  · intro t ht
    obtain ⟨hmax, hs⟩ := runBatch_mem suite (output_to_json lines) 1 batch hrun t ht
    refine ⟨hs, ?_, ?_, ?_⟩
    · show round (t.max_score * (suite.points / (batch.length : ℚ))) = _
      rw [hmax, one_mul]
    · intro h1
      show round (t.score * (suite.points / (batch.length : ℚ))) = _
      rw [h1, one_mul]
    · intro h0
      show round (t.score * (suite.points / (batch.length : ℚ))) = 0
      rw [h0, zero_mul, round_zero]

/-- Witness for C1: the concrete two-test run; the passing test's scale
result has `max_score = round (1/2)`. -/
theorem c1_per_test_scores_witness :
    wR.tests = Results.new.tests ++
        wBatch.map (fun t => t.scale (wSuite.points / (wBatch.length : ℚ)))
    ∧ (wT1.scale (wSuite.points / (wBatch.length : ℚ))).max_score
        = round (wSuite.points / (wBatch.length : ℚ)) := by
  have h := c1_per_test_scores Results.new wR wSuite wLines wBatch
    (by decide) (by decide) rfl
  exact ⟨h.1, (h.2 wT1 (by decide)).2.1⟩

/-- C2: for a suite with budget `P` and `N > 0` discovered outcomes, the
sum of the produced `max_score` values differs from `P` by at most
`0.01 * N`. -/
theorem c2_budget_drift (results r : Results) (suite : Suite)
    (lines : List (Option JLine)) (batch : List Test)
    (hrun : runBatch suite (output_to_json lines) 1 = some batch)
    (hN : 0 < batch.length)
    (hct : cargo_test results suite (.ok lines) = some r) :
    |((r.tests.drop results.tests.length).map (fun t => t.max_score)).sum
        - suite.points| ≤ (batch.length : ℚ) / 100 := by
  rw [cargo_test_ok_eq results suite lines batch r hrun hN hct]
  simp only [List.drop_left]
  set f := suite.points / (batch.length : ℚ) with hf
  have hconst : ∀ x ∈ batch.map (fun t => t.scale f), x.max_score = round f := by
    intro x hx
    obtain ⟨t, ht, rfl⟩ := List.mem_map.mp hx
    obtain ⟨hmax, -⟩ := runBatch_mem suite (output_to_json lines) 1 batch hrun t ht
    show round (t.max_score * f) = round f
    rw [hmax, one_mul]
  rw [sum_map_const _ _ (round f) hconst, List.length_map]
  have hNq : (0 : ℚ) < (batch.length : ℚ) := by exact_mod_cast hN
  have hP : (batch.length : ℚ) * f = suite.points := by
    rw [hf, mul_comm, div_mul_cancel₀ _ (ne_of_gt hNq)]
  have hnear := abs_round_sub_le f
  calc |(batch.length : ℚ) * round f - suite.points|
      = |(batch.length : ℚ) * round f - (batch.length : ℚ) * f| := by rw [hP]
    _ = |(batch.length : ℚ)| * |round f - f| := by
        rw [← abs_mul]; ring_nf
    _ = (batch.length : ℚ) * |round f - f| := by rw [abs_of_pos hNq]
    _ ≤ (batch.length : ℚ) * (1/200) := by
        exact mul_le_mul_of_nonneg_left hnear (le_of_lt hNq)
    _ ≤ (batch.length : ℚ) / 100 := by linarith

/-- Witness for C2: the concrete two-test run over a one-point suite; the
max_score sum is within `2/100` of the budget. -/
theorem c2_budget_drift_witness :
    |((wR.tests.drop Results.new.tests.length).map (fun t => t.max_score)).sum
        - wSuite.points| ≤ (wBatch.length : ℚ) / 100 :=
  c2_budget_drift Results.new wR wSuite wLines wBatch (by decide) (by decide) rfl

/-- C4: within a suite numbered `s`, the `i`-th accepted outcome (1-based,
in discovery order) is numbered `s ++ "." ++ i`; an unparseable raw line
contributes nothing and leaves the numbering of later accepted outcomes
unchanged. -/
theorem c4_numbering (suite : Suite) (lines : List (Option JLine))
    (batch : List Test)
    (hrun : runBatch suite (output_to_json lines) 1 = some batch) :
    (∀ (i : Nat) (hi : i < batch.length),
        (batch.get ⟨i, hi⟩).number
          = suite.number ++ ('.' :: (Nat.repr (i + 1)).data))
    ∧ ∀ (pre post : List (Option JLine)),
        output_to_json (pre ++ none :: post) = output_to_json (pre ++ post) := by
  constructor
  · intro i hi
    have h := runBatch_numbers suite (output_to_json lines) 1 batch hrun i hi
    rw [Nat.add_comm 1 i] at h
    exact h
  · intro pre post
    simp [output_to_json]

/-- Witness for C4: in the concrete run the second accepted outcome is
numbered `1.2`, and dropping an unparseable line between the two valid
lines leaves the parsed stream unchanged. -/
theorem c4_numbering_witness :
    (wBatch.get ⟨1, by decide⟩).number
        = wSuite.number ++ ('.' :: (Nat.repr (1 + 1)).data)
    ∧ output_to_json ([some okLine] ++ none :: [some failLine])
        = output_to_json ([some okLine] ++ [some failLine]) := by
  have h := c4_numbering wSuite wLines wBatch (by decide)
  exact ⟨h.1 1 (by decide), h.2 [some okLine] [some failLine]⟩

/-! ## Escape decoder lemmas -/

/-- A character list containing a non-hex-digit character folds to
`none`. -/
theorem hexDigits_eq_none_of_mem (s : Str)
    (h : ∃ c ∈ s, hexDigit c = none) : hexDigits s = none := by
  induction s with
  | nil =>
    obtain ⟨c, hc, -⟩ := h
    cases hc
  | cons c cs ih =>
    obtain ⟨d, hd, hnone⟩ := h
    simp only [hexDigits]
    rcases List.mem_cons.mp hd with heq | hmem
    · subst heq
      rw [hnone]
    · cases hc : hexDigit c
      · rfl
      · rw [ih ⟨d, hmem, hnone⟩]
        rfl

/-- Reduction of `unescape` on a `\u` escape followed by `ds ++ rest`,
when either `ds` has exactly the four characters `take(4)` consumes, or
the string ends after `ds` (so `take(4)` consumes only `ds`): the hex
fold of `ds` is `from_u32`-decoded and decoding continues on `rest`. -/
theorem unescape_u (ds rest : Str)
    (h : ds.length = 4 ∨ (rest = [] ∧ ds.length ≤ 4)) :
    unescape ('\\' :: 'u' :: (ds ++ rest)) =
      match hexDigits ds with
      | none => none
      | some digits =>
        match from_u32 (hexVal digits) with
        | none => none
        | some ch => (unescape rest).map (ch :: ·) := by
  rcases h with h4 | ⟨hrest, hle⟩
  · match ds, h4 with
    | [a, b, c, d], _ => rfl
  · subst hrest
    match ds, hle with
    | [], _ => rfl
    | [a], _ => rfl
    | [a, b], _ => rfl
    | [a, b, c], _ => rfl
    | [a, b, c, d], _ => rfl

/-- Counterexample to C7, both directions of its "exactly when".  Only
two characters follow `\u` in `\u41`, so by the claim the decoder must
fail with `MalformedEscape`; the code instead consumes the two available
hex digits and decodes `0x41` to `A`.  Conversely `\uDFFF` has 4 hex
digits available, so by the claim the decoder must succeed; the code
aborts because `0xDFFF` is a surrogate. -/
theorem c7_counterexample :
    (unescape ['\\', 'u', '4', '1'] ≠ none
      ∧ unescape ['\\', 'u', '4', '1'] = some ['A'])
    ∧ unescape ['\\', 'u', 'D', 'F', 'F', 'F'] = none := by decide

/-- C7 as amended: `\uXXXX` consumes up to 4 following characters (all
the remaining ones when the string ends sooner) and decodes their hex
fold big-endian; decoding fails exactly when a lone trailing backslash
has no following character, when one of the consumed characters is not a
hex digit, or when the folded value is not a valid Unicode scalar value
— not merely because fewer than 4 characters were available. -/
theorem c7_escape_decoder (ds rest : Str)
    (h : ds.length = 4 ∨ (rest = [] ∧ ds.length ≤ 4)) :
    (hexDigits ds = none → unescape ('\\' :: 'u' :: (ds ++ rest)) = none)
    ∧ (∀ digits, hexDigits ds = some digits →
        from_u32 (hexVal digits) = none →
        unescape ('\\' :: 'u' :: (ds ++ rest)) = none)
    ∧ (∀ digits ch, hexDigits ds = some digits →
        from_u32 (hexVal digits) = some ch →
        unescape ('\\' :: 'u' :: (ds ++ rest)) = (unescape rest).map (ch :: ·))
    ∧ unescape ['\\'] = none := by
  have hu := unescape_u ds rest h
  refine ⟨?_, ?_, ?_, rfl⟩
  · intro hd
    rw [hu, hd]
  · intro digits hd hv
    rw [hu]
    simp only [hd, hv]
  · intro digits ch hd hv
    rw [hu]
    simp only [hd, hv]

/-- Witness for C7 (amended): the four hex digits `D800` fold to a
surrogate, which is not a valid scalar value, so the decoder fails even
though 4 hex digits are available. -/
theorem c7_escape_decoder_witness :
    unescape ('\\' :: 'u' :: (['D', '8', '0', '0'] ++ [])) = none :=
  (c7_escape_decoder ['D', '8', '0', '0'] [] (Or.inl rfl)).2.1
    [13, 8, 0, 0] (by decide) (by decide)

/-- C10: with exactly 4 characters after `\u`, the decoder still aborts
(panics) when one of the 4 characters is not a hex digit, and when the 4
hex digits fold into the surrogate range `0xD800–0xDFFF`. -/
theorem c10_panic_reachable (ds rest : Str) (h4 : ds.length = 4) :
    ((∃ c ∈ ds, hexDigit c = none) →
      unescape ('\\' :: 'u' :: (ds ++ rest)) = none)
    ∧ (∀ digits, hexDigits ds = some digits →
        55296 ≤ hexVal digits → hexVal digits ≤ 57343 →
        unescape ('\\' :: 'u' :: (ds ++ rest)) = none) := by
  have hu := unescape_u ds rest (Or.inl h4)
  constructor
  · intro hex
    rw [hu, hexDigits_eq_none_of_mem ds hex]
  · intro digits hd h1 h2
    have hv : from_u32 (hexVal digits) = none := by
      rw [from_u32, if_neg]
      simp only [Nat.isValidChar]
      omega
    rw [hu]
    simp only [hd, hv]

/-- Witness for C10: `\uz000` (non-hex first digit) and `\ud800`
(surrogate) both make the decoder abort although 4 characters follow. -/
theorem c10_panic_reachable_witness :
    unescape ('\\' :: 'u' :: (['z', '0', '0', '0'] ++ [])) = none
    ∧ unescape ('\\' :: 'u' :: (['d', '8', '0', '0'] ++ [])) = none :=
  ⟨(c10_panic_reachable ['z', '0', '0', '0'] [] rfl).1 ⟨'z', by decide, by decide⟩,
   (c10_panic_reachable ['d', '8', '0', '0'] [] rfl).2
     [13, 8, 0, 0] (by decide) (by decide) (by decide)⟩

/-- Counterexample to C8: a failing test whose `stdout` field is the JSON
string `abc` gets diagnostic `"abc"` — the quote delimiters produced by
rendering the field are kept, not stripped as the claim states. -/
theorem c8_counterexample :
    filter_test_output failLine ['1', '.', '1'] ['S']
      = some (some (Test.new ['1', '.', '1']
          ('S' :: ' ' :: '-' :: ' ' :: ['t', '1']) 0 ['"', 'a', 'b', 'c', '"']))
    ∧ (['"', 'a', 'b', 'c', '"'] : Str) ≠ ['a', 'b', 'c'] := by decide

/-- C8 as amended: the diagnostic is empty when the test passed; when it
failed, the diagnostic is the `stdout` field's rendered text (quote
delimiters included, not stripped) run through the Escape Decoder. -/
theorem c8_diagnostic (line : JLine) (number pfx : Str) (t : Test)
    (h : filter_test_output line number pfx = some (some t)) :
    (line.event.eqStr ['o', 'k'] = true → t.output = [])
    ∧ (line.event.eqStr ['o', 'k'] = false →
        unescape line.stdout.render = some t.output) := by
  obtain ⟨-, -, -, h1, h2⟩ := filter_test_output_eq line number pfx t h
  exact ⟨h1, h2⟩

/-- Witness for C8 (amended): the concrete failing record's diagnostic is
the unescaped rendered `stdout`, quotes included. -/
theorem c8_diagnostic_witness :
    unescape failLine.stdout.render = some ['"', 'a', 'b', 'c', '"'] :=
  (c8_diagnostic failLine ['1', '.', '1'] ['S']
    (Test.new ['1', '.', '1'] ('S' :: ' ' :: '-' :: ' ' :: ['t', '1']) 0
      ['"', 'a', 'b', 'c', '"'])
    (by decide)).2 (by decide)

/-! ## Report invariant (C9) -/

/-- Scaling a batch test by a nonnegative factor keeps scores
nonnegative and bounded by the max score. -/
theorem scale_wellScored (t : Test) (f : ℚ) (hf : 0 ≤ f)
    (hmax : t.max_score = 1) (hs : t.score = 1 ∨ t.score = 0) :
    0 ≤ (t.scale f).score ∧ 0 ≤ (t.scale f).max_score
      ∧ (t.scale f).score ≤ (t.scale f).max_score := by
  have hmax' : (t.scale f).max_score = round f := by
    show round (t.max_score * f) = round f
    rw [hmax, one_mul]
  have h0 : (0 : ℚ) ≤ round f := round_nonneg f hf
  rcases hs with h1 | h1
  · have hsc : (t.scale f).score = round f := by
      show round (t.score * f) = round f
      rw [h1, one_mul]
    rw [hsc, hmax']
    exact ⟨h0, h0, le_refl _⟩
  · have hsc : (t.scale f).score = 0 := by
      show round (t.score * f) = 0
      rw [h1, zero_mul, round_zero]
    rw [hsc, hmax']
    exact ⟨le_refl 0, h0, h0⟩

/-- One suite invocation preserves the score bounds of the accumulated
report, given a nonnegative suite budget. -/
theorem cargo_test_wellScored (results : Results) (suite : Suite)
    (run : SuiteRun) (r : Results) (hp : 0 ≤ suite.points)
    (h : cargo_test results suite run = some r)
    (hres : ∀ t ∈ results.tests,
      0 ≤ t.score ∧ 0 ≤ t.max_score ∧ t.score ≤ t.max_score) :
    ∀ t ∈ r.tests, 0 ≤ t.score ∧ 0 ≤ t.max_score ∧ t.score ≤ t.max_score := by
  rcases run with err | lines
  · have h' : some { results with output := err } = some r := h
    simp only [Option.some.injEq] at h'
    rw [← h']
    exact hres
  · rcases hrun : runBatch suite (output_to_json lines) 1 with _ | batch
    · simp only [cargo_test] at h
      rw [hrun] at h
      exact absurd (h : (none : Option Results) = some r) (by simp)
    · rcases Nat.eq_zero_or_pos batch.length with hz | hpos
      · have hnil : batch = [] := List.length_eq_zero.mp hz
        subst hnil
        simp only [cargo_test] at h
        rw [hrun] at h
        have h' : some results = some r := h
        simp only [Option.some.injEq] at h'
        rw [← h']
        exact hres
      · rw [cargo_test_ok_eq results suite lines batch r hrun hpos h]
        intro t ht
        rcases List.mem_append.mp ht with hold | hnew
        · exact hres t hold
        · obtain ⟨u, hu, rfl⟩ := List.mem_map.mp hnew
          obtain ⟨hmax, hs⟩ :=
            runBatch_mem suite (output_to_json lines) 1 batch hrun u hu
          exact scale_wellScored u _ (div_nonneg hp (Nat.cast_nonneg _)) hmax hs

/-- The suite loop preserves the score bounds, given nonnegative
budgets. -/
theorem runSuites_wellScored :
    ∀ (suites : List (Suite × SuiteRun)) (acc r : Results),
      (∀ s ∈ suites, 0 ≤ s.1.points) →
      runSuites acc suites = some r →
      (∀ t ∈ acc.tests, 0 ≤ t.score ∧ 0 ≤ t.max_score ∧ t.score ≤ t.max_score) →
      ∀ t ∈ r.tests, 0 ≤ t.score ∧ 0 ≤ t.max_score ∧ t.score ≤ t.max_score := by
  intro suites
  induction suites with
  | nil =>
    intro acc r _ h hacc
    simp only [runSuites, Option.some.injEq] at h
    rw [← h]
    exact hacc
  | cons s rest ih =>
    intro acc r hp h hacc
    rcases s with ⟨suite, run⟩
    simp only [runSuites] at h
    rcases hct : cargo_test acc suite run with _ | r'
    · rw [hct] at h
      exact absurd h (by simp)
    · rw [hct] at h
      refine ih r' r (fun s hs => hp s (List.mem_cons_of_mem _ hs)) h ?_
      exact cargo_test_wellScored acc suite run r'
        (hp (suite, run) (List.mem_cons_self _ _)) hct hacc

/-- C9: when every suite's budget is nonnegative, every test of the final
report has `score ≥ 0`, `max_score ≥ 0` and `score ≤ max_score`. -/
theorem c9_score_bounds (suites : List (Suite × SuiteRun)) (r : Results)
    (hp : ∀ s ∈ suites, 0 ≤ s.1.points)
    (h : runSuites Results.new suites = some r) :
    ∀ t ∈ r.tests, 0 ≤ t.score ∧ 0 ≤ t.max_score ∧ t.score ≤ t.max_score :=
  runSuites_wellScored suites Results.new r hp h (fun t ht => absurd ht (by simp [Results.new]))

/-- Witness for C9: in the concrete one-suite run the scaled passing test
satisfies the bounds. -/
theorem c9_score_bounds_witness :
    0 ≤ (wT1.scale (wSuite.points / (wBatch.length : ℚ))).score
    ∧ 0 ≤ (wT1.scale (wSuite.points / (wBatch.length : ℚ))).max_score
    ∧ (wT1.scale (wSuite.points / (wBatch.length : ℚ))).score
        ≤ (wT1.scale (wSuite.points / (wBatch.length : ℚ))).max_score :=
  c9_score_bounds [(wSuite, .ok wLines)] wR
    (by
      intro s hs
      rcases List.mem_cons.mp hs with heq | hmem
      · rw [heq]; decide
      · cases hmem)
    rfl
    (wT1.scale (wSuite.points / (wBatch.length : ℚ))) (List.Mem.head _)

end TestRunner
